import Mathlib

/-!
Verification development for the cloud-assembly manifest protocol
(`Manifest` class: save / load / loadAssetManifest / _validate / patchStackTags,
plus the `VERSION_MISMATCH` marker constant).

The manifest protocol operates on parsed JSON documents at runtime, so the
embedding models the dynamic (JavaScript) value universe directly: a `JValue`
is the result of `JSON.parse`, extended with `undefined` for the JavaScript value
`undefined`, which arises from property accesses on objects lacking the
property (the legacy-tag normalizer materialises such values).

External collaborators that are not part of the repository sources (the
`semver` npm package, the `jsonschema` npm package, the build-time embedded
current-version constant and schema grammar, and the discriminator string
constants of the artifact object model) are modelled from the spec; each such
definition carries a doc comment saying so.
-/

namespace CloudAssembly

/-- Runtime (JavaScript) value universe for parsed JSON documents. `undefined`
models the JavaScript value `undefined`; objects are ordered field lists, as
JavaScript objects preserve insertion order. -/
inductive JValue where
  | undefined
  | null
  | bool (b : Bool)
  | num (n : Int)
  | str (s : String)
  | arr (elems : List JValue)
  | obj (fields : List (String × JValue))

mutual

/-- Structural equality test for `JValue` (used to build a `DecidableEq`
instance, since deriving does not handle the nested inductive). -/
def JValue.beq : JValue → JValue → Bool
  | .undefined, .undefined => true
  | .null, .null => true
  | .bool a, .bool b => a == b
  | .num a, .num b => a == b
  | .str a, .str b => a == b
  | .arr a, .arr b => JValue.beqL a b
  | .obj a, .obj b => JValue.beqF a b
  | _, _ => false

/-- Elementwise equality test for lists of `JValue`. -/
def JValue.beqL : List JValue → List JValue → Bool
  | [], [] => true
  | x :: xs, y :: ys => JValue.beq x y && JValue.beqL xs ys
  | _, _ => false

/-- Fieldwise equality test for object field lists. -/
def JValue.beqF : List (String × JValue) → List (String × JValue) → Bool
  | [], [] => true
  | (k, v) :: xs, (l, w) :: ys => k == l && JValue.beq v w && JValue.beqF xs ys
  | _, _ => false

end

mutual

theorem JValue.beq_iff : ∀ a b : JValue, JValue.beq a b = true ↔ a = b
  | .undefined, .undefined => by simp [JValue.beq]
  | .null, .null => by simp [JValue.beq]
  | .bool _, .bool _ => by simp [JValue.beq]
  | .num _, .num _ => by simp [JValue.beq]
  | .str _, .str _ => by simp [JValue.beq]
  | .arr a, .arr b => by
      have h := JValue.beqL_iff a b
      simp only [JValue.beq, h]
      constructor
      · intro hh; rw [hh]
      · intro hh; injection hh
  | .obj a, .obj b => by
      have h := JValue.beqF_iff a b
      simp only [JValue.beq, h]
      constructor
      · intro hh; rw [hh]
      · intro hh; injection hh
  | .undefined, .null => by simp [JValue.beq]
  | .undefined, .bool _ => by simp [JValue.beq]
  | .undefined, .num _ => by simp [JValue.beq]
  | .undefined, .str _ => by simp [JValue.beq]
  | .undefined, .arr _ => by simp [JValue.beq]
  | .undefined, .obj _ => by simp [JValue.beq]
  | .null, .undefined => by simp [JValue.beq]
  | .null, .bool _ => by simp [JValue.beq]
  | .null, .num _ => by simp [JValue.beq]
  | .null, .str _ => by simp [JValue.beq]
  | .null, .arr _ => by simp [JValue.beq]
  | .null, .obj _ => by simp [JValue.beq]
  | .bool _, .undefined => by simp [JValue.beq]
  | .bool _, .null => by simp [JValue.beq]
  | .bool _, .num _ => by simp [JValue.beq]
  | .bool _, .str _ => by simp [JValue.beq]
  | .bool _, .arr _ => by simp [JValue.beq]
  | .bool _, .obj _ => by simp [JValue.beq]
  | .num _, .undefined => by simp [JValue.beq]
  | .num _, .null => by simp [JValue.beq]
  | .num _, .bool _ => by simp [JValue.beq]
  | .num _, .str _ => by simp [JValue.beq]
  | .num _, .arr _ => by simp [JValue.beq]
  | .num _, .obj _ => by simp [JValue.beq]
  | .str _, .undefined => by simp [JValue.beq]
  | .str _, .null => by simp [JValue.beq]
  | .str _, .bool _ => by simp [JValue.beq]
  | .str _, .num _ => by simp [JValue.beq]
  | .str _, .arr _ => by simp [JValue.beq]
  | .str _, .obj _ => by simp [JValue.beq]
  | .arr _, .undefined => by simp [JValue.beq]
  | .arr _, .null => by simp [JValue.beq]
  | .arr _, .bool _ => by simp [JValue.beq]
  | .arr _, .num _ => by simp [JValue.beq]
  | .arr _, .str _ => by simp [JValue.beq]
  | .arr _, .obj _ => by simp [JValue.beq]
  | .obj _, .undefined => by simp [JValue.beq]
  | .obj _, .null => by simp [JValue.beq]
  | .obj _, .bool _ => by simp [JValue.beq]
  | .obj _, .num _ => by simp [JValue.beq]
  | .obj _, .str _ => by simp [JValue.beq]
  | .obj _, .arr _ => by simp [JValue.beq]

theorem JValue.beqL_iff : ∀ a b : List JValue, JValue.beqL a b = true ↔ a = b
  | [], [] => by simp [JValue.beqL]
  | x :: xs, y :: ys => by
      have h1 := JValue.beq_iff x y
      have h2 := JValue.beqL_iff xs ys
      simp [JValue.beqL, h1, h2]
  | [], _ :: _ => by simp [JValue.beqL]
  | _ :: _, [] => by simp [JValue.beqL]

theorem JValue.beqF_iff : ∀ a b : List (String × JValue), JValue.beqF a b = true ↔ a = b
  | [], [] => by simp [JValue.beqF]
  | (k, v) :: xs, (l, w) :: ys => by
      have h1 := JValue.beq_iff v w
      have h2 := JValue.beqF_iff xs ys
      simp [JValue.beqF, h1, h2]
  | [], _ :: _ => by simp [JValue.beqF]
  | _ :: _, [] => by simp [JValue.beqF]

end

instance : DecidableEq JValue := fun a b => decidable_of_iff _ (JValue.beq_iff a b)

/-- Field lookup in an object field list (first occurrence wins, matching the
unique-key objects produced by `JSON.parse`). -/
def jsLookup : List (String × JValue) → String → Option JValue
  | [], _ => none
  | (k, v) :: rest, key => if k = key then some v else jsLookup rest key

/-- JavaScript property access `v.k`. Accessing a property of `null` or
`undefined` throws a `TypeError` (modelled as `none`); on objects a missing
property reads as `undefined`; other primitives have none of the properties
the manifest code reads, so the access yields `undefined`. -/
def jsGetOpt : JValue → String → Option JValue
  | .undefined, _ => none
  | .null, _ => none
  | .obj fs, k => some ((jsLookup fs k).getD .undefined)
  | _, _ => some .undefined

/-- Property access defaulting to `undefined`; convenience form for statements
about accesses that are known not to throw. -/
def jsGetD (v : JValue) (k : String) : JValue := (jsGetOpt v k).getD .undefined

/-- JavaScript truthiness: `undefined`, `null`, `false`, `0` and the empty
string are falsy; every object and array (including the empty ones) is truthy. -/
def truthy : JValue → Bool
  | .undefined => false
  | .null => false
  | .bool b => b
  | .num n => decide (n ≠ 0)
  | .str s => decide (s ≠ "")
  | .arr _ => true
  | .obj _ => true

/-- Assignment `fields[k] = x` on an object field list: replaces the value in
place if the key exists (keeping its position), otherwise appends. -/
def setFieldList : List (String × JValue) → String → JValue → List (String × JValue)
  | [], k, v => [(k, v)]
  | (k', v') :: rest, k, v =>
      if k' = k then (k, v) :: rest else (k', v') :: setFieldList rest k v

/-- Property assignment `v.k = x`; a no-op on non-objects (the manifest code
only assigns to values it has just tested to be objects). -/
def jsSet (v : JValue) (k : String) (x : JValue) : JValue :=
  match v with
  | .obj fs => .obj (setFieldList fs k x)
  | _ => v

/-- Modelled from the spec: the discriminator value for cloud-stack artifacts
(`ArtifactType.AWS_CLOUDFORMATION_STACK` of the collaborator object model,
which is outside the provided sources). -/
def AWS_CLOUDFORMATION_STACK : String := "aws:cloudformation:stack"

/-- Modelled from the spec: the discriminator value for stack-tags metadata
entries (`ArtifactMetadataEntryType.STACK_TAGS` of the collaborator object
model, which is outside the provided sources). -/
def STACK_TAGS : String := "aws:cdk:stack-tags"

/-- One payload element rewrite of `patchStackTags`: the map callback
`(t) => ({ key: t.Key, value: t.Value })`. Note that it reads the capitalized
fields unconditionally; when they are absent the resulting fields hold
`undefined`, and every other field of `t` is discarded. Reading a property of
`null`/`undefined` throws (`none`). -/
def patchTag (t : JValue) : Option JValue :=
  match jsGetOpt t "Key" with
  | none => none
  | some k =>
    match jsGetOpt t "Value" with
    | none => none
    | some v => some (.obj [("key", k), ("value", v)])

/-- Processing of a single metadata entry inside `patchStackTags`: when the
entry discriminator equals `STACK_TAGS` and its `data` payload is truthy, the
payload is replaced by `data.map(t => ({ key: t.Key, value: t.Value }))`.
Calling `.map` on a truthy non-array payload throws a `TypeError` (`none`). -/
def patchMetadataEntry (e : JValue) : Option JValue :=
  match jsGetOpt e "type" with
  | none => none
  | some ty =>
    if ty = .str STACK_TAGS then
      match jsGetOpt e "data" with
      | none => none
      | some d =>
        if truthy d then
          match d with
          | .arr xs =>
            match xs.mapM patchTag with
            | none => none
            | some ys => some (jsSet e "data" (.arr ys))
          | _ => none
        else some e
    else some e

/-- Processing of one value of the metadata record: the inner
`for (const metadataEntry of metadataEntries)` loop. Arrays iterate their
elements; strings iterate their characters (which are never stack-tags
entries, so they pass through untouched); every other value is not iterable
and throws a `TypeError` (`none`). -/
def patchMetadataEntries (v : JValue) : Option JValue :=
  match v with
  | .arr xs => (xs.mapM patchMetadataEntry).map .arr
  | .str s =>
      ((s.data.map (fun c => JValue.str (String.mk [c]))).mapM patchMetadataEntry).map
        (fun _ => v)
  | _ => none

/-- Processing of one artifact by `patchStackTags`: when the artifact
discriminator equals `AWS_CLOUDFORMATION_STACK`, iterate
`Object.values(artifact.metadata || [])` and rewrite each metadata entry list;
the mutations land back in the metadata record. `Object.values` of a string
yields its characters and of a number or boolean yields nothing, so in those
cases the artifact is unchanged. -/
def patchArtifact (a : JValue) : Option JValue :=
  match jsGetOpt a "type" with
  | none => none
  | some ty =>
    if ty = .str AWS_CLOUDFORMATION_STACK then
      match jsGetOpt a "metadata" with
      | none => none
      | some md =>
        if truthy md then
          match md with
          | .obj gs =>
            match gs.mapM (fun kv => (patchMetadataEntries kv.2).map (fun v => (kv.1, v))) with
            | none => none
            | some gs' => some (jsSet a "metadata" (.obj gs'))
          | .arr xs =>
            match xs.mapM patchMetadataEntries with
            | none => none
            | some xs' => some (jsSet a "metadata" (.arr xs'))
          | .str s =>
            match (s.data.map (fun c => JValue.str (String.mk [c]))).mapM patchMetadataEntries with
            | none => none
            | some _ => some a
          | _ => some a
        else some a
    else some a

namespace Manifest

/-- The legacy stack-tags shape normalizer `Manifest.patchStackTags` as a pure
rewrite: the source mutates the parsed document in place, which the embedding
renders by rebuilding the document with the mutated parts replaced. The
traversal is `Object.values(manifest.artifacts || [])`, then per cloud-stack
artifact `Object.values(artifact.metadata || [])`, then the entry loop.
`none` models a thrown `TypeError` (property access on `null`/`undefined`,
iteration of a non-iterable, or `.map` on a truthy non-array payload). -/
def patchStackTags (m : JValue) : Option JValue :=
  match jsGetOpt m "artifacts" with
  | none => none
  | some arts =>
    if truthy arts then
      match arts with
      | .obj fs =>
        match fs.mapM (fun kv => (patchArtifact kv.2).map (fun v => (kv.1, v))) with
        | none => none
        | some fs' => some (jsSet m "artifacts" (.obj fs'))
      | .arr xs =>
        match xs.mapM patchArtifact with
        | none => none
        | some xs' => some (jsSet m "artifacts" (.arr xs'))
      | .str s =>
        match (s.data.map (fun c => JValue.str (String.mk [c]))).mapM patchArtifact with
        | none => none
        | some _ => some m
      | _ => some m
    else some m

end Manifest

mutual

/-- Model of a `JSON.stringify` / `JSON.parse` round trip on a runtime value:
object fields whose value is `undefined` are dropped, array elements that are
`undefined` are serialized as `null`, everything else is preserved. A document
is persisted exactly as this normal form of the in-memory value. -/
def jsonNormalize : JValue → JValue
  | .undefined => .undefined
  | .null => .null
  | .bool b => .bool b
  | .num n => .num n
  | .str s => .str s
  | .arr xs => .arr (jsonNormalizeArr xs)
  | .obj fs => .obj (jsonNormalizeObj fs)

/-- Serialization of array elements: `undefined` becomes `null`. -/
def jsonNormalizeArr : List JValue → List JValue
  | [] => []
  | x :: xs => (if x = .undefined then .null else jsonNormalize x) :: jsonNormalizeArr xs

/-- Serialization of object fields: fields holding `undefined` are dropped. -/
def jsonNormalizeObj : List (String × JValue) → List (String × JValue)
  | [] => []
  | (k, v) :: fs =>
      if v = .undefined then jsonNormalizeObj fs else (k, jsonNormalize v) :: jsonNormalizeObj fs

end

/-- JavaScript object spread `... src` applied on top of the fields `base`:
assigns every own enumerable entry of `src` in order. Assigning an existing
key overwrites its value but keeps its original position. Spreading an array
or a string assigns its index keys; spreading other primitives assigns
nothing. -/
def jsAssignFields (base : List (String × JValue)) : JValue → List (String × JValue)
  | .obj gs => gs.foldl (fun acc kv => setFieldList acc kv.1 kv.2) base
  | .arr xs => (xs.enum).foldl (fun acc ix => setFieldList acc (toString ix.1) ix.2) base
  | .str s =>
      ((s.data.map (fun c => JValue.str (String.mk [c]))).enum).foldl
        (fun acc ix => setFieldList acc (toString ix.1) ix.2) base
  | _ => base

mutual

/-- JavaScript string coercion of a runtime value, as used by template
interpolation in the error messages. -/
def jsToString : JValue → String
  | .undefined => "undefined"
  | .null => "null"
  | .bool b => cond b "true" "false"
  | .num n => toString n
  | .str s => s
  | .arr xs => String.intercalate "," (jsToStringElems xs)
  | .obj _ => "[object Object]"

/-- Array element renderings for JavaScript string coercion: `null` and
`undefined` elements render as the empty string. -/
def jsToStringElems : List JValue → List String
  | [] => []
  | x :: xs =>
      (if x = .null ∨ x = .undefined then "" else jsToString x) :: jsToStringElems xs

end

/-- Modelled from the spec: prerelease identifiers of a semantic version are
either numeric or alphanumeric (section 4.1, standard semantic-versioning
rules; the `semver` npm package is an external collaborator, outside the
provided sources). -/
inductive PreId where
  | num (n : ℕ)
  | str (s : String)
deriving DecidableEq

/-- Modelled from the spec: a parsed three-component semantic version with an
optional prerelease tag (build metadata does not participate in precedence
and is dropped by parsing). -/
structure SemVer where
  major : ℕ
  minor : ℕ
  patch : ℕ
  prerelease : List PreId
deriving DecidableEq

/-- Splitting of a character list at every occurrence of a separator
(mirroring `String.splitOn` for a single-character separator). -/
def splitOnChar (sep : Char) : List Char → List (List Char)
  | [] => [[]]
  | c :: rest =>
      let r := splitOnChar sep rest
      if c = sep then [] :: r
      else
        match r with
        | [] => [[c]]
        | g :: gs => (c :: g) :: gs

/-- Splitting of a character list at the first occurrence of a separator,
returning the remainder when the separator occurs. -/
def breakAtChar (sep : Char) : List Char → List Char × Option (List Char)
  | [] => ([], none)
  | c :: rest =>
      if c = sep then ([], some rest)
      else
        let p := breakAtChar sep rest
        (c :: p.1, p.2)

/-- Modelled from the spec: a numeric identifier is a nonempty digit string
without leading zeroes; parsing returns its value. -/
def parseNumeric (cs : List Char) : Option ℕ :=
  if cs = [] then none
  else if cs.all Char.isDigit then
    if cs.head? = some '0' ∧ cs.length ≠ 1 then none
    else some (cs.foldl (fun a c => a * 10 + (c.toNat - 48)) 0)
  else none

/-- Character class of semantic-version identifiers: ASCII alphanumerics and
the hyphen. -/
def semverIdentChar (c : Char) : Bool := c.isAlphanum || c = '-'

/-- Modelled from the spec: parsing of one prerelease identifier. An
all-digit identifier must be a valid numeric identifier (no leading zeroes)
and compares numerically; otherwise the identifier must be alphanumeric. -/
def parsePreId (cs : List Char) : Option PreId :=
  if cs = [] then none
  else if cs.all Char.isDigit then (parseNumeric cs).map .num
  else if cs.all semverIdentChar then some (.str (String.mk cs))
  else none

/-- Parsing of the `major.minor.patch` core: exactly three numeric
identifiers separated by dots. -/
def parseMMP (cs : List Char) : Option (ℕ × ℕ × ℕ) :=
  match splitOnChar '.' cs with
  | [a, b, c] => do
      let ma ← parseNumeric a
      let mi ← parseNumeric b
      let pa ← parseNumeric c
      pure (ma, mi, pa)
  | _ => none

/-- Parsing of the version core `major.minor.patch[-prerelease]`: the
prerelease part starts at the first hyphen after the patch component and is a
dot-separated nonempty list of prerelease identifiers. -/
def semverCore (cs : List Char) : Option SemVer := do
  let p := breakAtChar '-' cs
  let (ma, mi, pa) ← parseMMP p.1
  match p.2 with
  | none => pure ⟨ma, mi, pa, []⟩
  | some pre => do
      let ids ← (splitOnChar '.' pre).mapM parsePreId
      pure ⟨ma, mi, pa, ids⟩

/-- Validity of the build-metadata suffix: dot-separated nonempty
alphanumeric identifiers (build metadata is otherwise ignored). -/
def buildOk (b : List Char) : Bool :=
  (splitOnChar '.' b).all (fun p => !p.isEmpty && p.all semverIdentChar)

/-- Modelled from the spec: `semver.valid` — parse a string as a semantic
version, returning `none` when the text is not syntactically valid
(section 4.1: `parse(text) -> Version`, failing with `InvalidVersionFormat`).
Build metadata after a `+` must be well formed but is dropped. -/
def semverValid (s : String) : Option SemVer :=
  match splitOnChar '+' s.data with
  | [core] => semverCore core
  | [core, build] => if buildOk build then semverCore core else none
  | _ => none

/-- Value of `semver.valid` applied to an arbitrary runtime value: the
`semver` package only accepts strings, every other value parses as invalid. -/
def semverOfJV : JValue → Option SemVer
  | .str s => semverValid s
  | _ => none

/-- Ordering key of a prerelease identifier: numeric identifiers order before
alphanumeric ones; numeric identifiers compare by value, alphanumeric ones
lexically by character code. -/
def PreId.key : PreId → ℕ ⊕ₗ List Char
  | .num n => toLex (Sum.inl n)
  | .str s => toLex (Sum.inr s.data)

/-- Ordering key of a semantic version under precedence: major, minor and
patch compare numerically first; then a release (empty prerelease) ranks
above any prerelease of the same core, and prerelease lists compare
lexicographically with a shorter list ranking below its extensions. -/
def SemVer.key (v : SemVer) : ℕ ×ₗ (ℕ ×ₗ (ℕ ×ₗ (Bool ×ₗ List (ℕ ⊕ₗ List Char)))) :=
  toLex (v.major, toLex (v.minor, toLex (v.patch,
    toLex (v.prerelease.isEmpty, v.prerelease.map PreId.key))))

/-- Modelled from the spec: `compareGreaterThan(a, b)` / `semver.gt` — true
exactly when `a` denotes a strictly later release than `b` under
semantic-version precedence. -/
def semverGt (a b : SemVer) : Bool := decide (SemVer.key b < SemVer.key a)

/-- Canonical rendering of a parsed version, as `semver.valid` returns it
(build metadata stripped); this string is interpolated into the
version-mismatch error message. -/
def SemVer.render (v : SemVer) : String :=
  toString v.major ++ "." ++ toString v.minor ++ "." ++ toString v.patch ++
    (if v.prerelease = [] then ""
     else "-" ++ String.intercalate "."
       (v.prerelease.map (fun i => match i with | .num n => toString n | .str s => s)))

/-- This marker is used by the CLI to identify this specific error, in which
case the user is instructed to upgrade the CLI (`VERSION_MISMATCH` constant
of the source). -/
def VERSION_MISMATCH : String := "Cloud assembly schema version mismatch"

/-- Errors a load can throw: a JavaScript `TypeError` escaping the legacy
shape normalizer or the version read, the invalid-semver error thrown by
`parseVersion`, the version-mismatch error, and the schema-validation error
carrying the collected violations. -/
inductive LoadError where
  | typeError
  | invalidSemver (rendered : String)
  | versionMismatch (maxSupported actual : String)
  | invalidManifest (errs : List String)
deriving DecidableEq

/-- Message text of each error, following the template literals of the
source (`TypeError` messages are engine dependent and abbreviated here). -/
def LoadError.message : LoadError → String
  | .typeError => "TypeError"
  | .invalidSemver v => "Invalid semver string: \"" ++ (v ++ "\"")
  | .versionMismatch maxS act =>
      VERSION_MISMATCH ++ (": Maximum schema version supported is " ++
        (maxS ++ (", but found " ++ act)))
  | .invalidManifest errs =>
      "Invalid assembly manifest:" ++ ("\n" ++ String.intercalate "\n" errs)

/-- Test whether `s` begins with the marker string `m` (comparison of the
leading characters). -/
def beginsWith (s m : String) : Bool := decide (s.data.take m.data.length = m.data)

instance {ε α : Type} [DecidableEq ε] [DecidableEq α] : DecidableEq (Except ε α) := fun a b =>
  match a, b with
  | .error e, .error f => decidable_of_iff (e = f) (by simp)
  | .ok x, .ok y => decidable_of_iff (x = y) (by simp)
  | .error _, .ok _ => isFalse (fun h => Except.noConfusion h)
  | .ok _, .error _ => isFalse (fun h => Except.noConfusion h)

/-- Modelled from the spec: the shape of a schema grammar as the validator
consumes it (section 4.2). A grammar node either accepts anything, constrains
a primitive type, constrains arrays elementwise, or constrains an object by
declared properties, required properties, and whether undeclared properties
are tolerated (`additionalProperties`; `false` marks the grammar closed). The
actual grammar document is an opaque build-time collaborator value, so the
protocol operations take it as a parameter. -/
inductive JSchema where
  | any
  | prim (t : String)
  | arrOf (item : JSchema)
  | objSchema (properties : List (String × JSchema)) (required : List String)
      (additionalProperties : Bool)

/-- Lookup of a declared property in a grammar node. -/
def lookupSchema : List (String × JSchema) → String → Option JSchema
  | [], _ => none
  | (k, s) :: rest, key => if k = key then some s else lookupSchema rest key

/-- Type name of a runtime value as reported in validation errors. -/
def jsTypeName : JValue → String
  | .undefined => "undefined"
  | .null => "null"
  | .bool _ => "boolean"
  | .num _ => "number"
  | .str _ => "string"
  | .arr _ => "array"
  | .obj _ => "object"

/-- Application of an element validator to each array element under an
indexed path. -/
def elemErrs (f : JValue → String → List String) : List JValue → String → ℕ → List String
  | [], _, _ => []
  | x :: xs, path, i =>
      f x (path ++ "[" ++ toString i ++ "]") ++ elemErrs f xs path (i + 1)

mutual

/-- Modelled from the spec: the schema validator (`jsonschema` package,
invoked with `nestedErrors: true` and `allowUnknownAttributes: false`).
Validation is a pure function of the document and the grammar; it recurses
into nested structures, localises each violation with a path, and collects
every violation rather than stopping at the first. With a closed grammar
node, every property of the instance not declared by the grammar is a
violation. -/
def schemaValidate : JSchema → JValue → String → List String
  | .any, _, _ => []
  | .prim t, v, path =>
      if jsTypeName v = t then []
      else [path ++ " is not of a type " ++ t]
  | .arrOf s, v, path =>
      match v with
      | .arr xs => elemErrs (fun x p => schemaValidate s x p) xs path 0
      | _ => [path ++ " is not of a type array"]
  | .objSchema props req ap, v, path =>
      match v with
      | .obj fs =>
          ((req.filter (fun r => (jsLookup fs r).isNone)).map
              (fun r => path ++ " requires property " ++ r))
            ++ schemaValidateProps props fs path
            ++ (if ap then []
                else (fs.filter (fun kv => (lookupSchema props kv.1).isNone)).map
                  (fun kv => path ++ " additionalProperty " ++ kv.1 ++
                    " exists in instance when not allowed"))
      | _ => [path ++ " is not of a type object"]

/-- Validation of the declared properties of an object node: each declared
property present in the instance is validated recursively under its path. -/
def schemaValidateProps : List (String × JSchema) → List (String × JValue) → String → List String
  | [], _, _ => []
  | (k, sub) :: ps, fs, path =>
      (match jsLookup fs k with
       | some v => schemaValidate sub v (path ++ "." ++ k)
       | none => [])
        ++ schemaValidateProps ps fs path

end

namespace Manifest

/-- Save manifest to file (`Manifest.save`). The persisted value is the
serialization of the object literal `{ version: Manifest.version(), ...manifest }`.
The build-time embedded current-version constant `Manifest.version()` is not
part of the provided sources and is passed as the `currentVersion` parameter.
Note the spread follows the version stamp, so fields of `manifest` override
it. -/
def save (currentVersion : String) (manifest : JValue) : JValue :=
  jsonNormalize (.obj (jsAssignFields [("version", .str currentVersion)] manifest))

/-- Saving of an asset manifest (`Manifest.saveAssetManifest`): identical
construction applied to the asset-manifest document kind. -/
def saveAssetManifest (currentVersion : String) (assetManifest : JValue) : JValue :=
  jsonNormalize (.obj (jsAssignFields [("version", .str currentVersion)] assetManifest))

/-- Version check and schema validation (`Manifest._validate`). First the
build current version is parsed, then the document version; `parseVersion`
throws the invalid-semver error when `semver.valid` rejects its argument.
A document version strictly greater than the current version throws the
marker-carrying version-mismatch error. Only then is the wrapped assembly
validated against the embedded grammar, collecting every violation. -/
def _validate (currentVersion : String) (schema : JSchema) (assmbly : JValue)
    (version : JValue) : Except LoadError Unit :=
  match semverValid currentVersion with
  | none => .error (.invalidSemver currentVersion)
  | some maxSupported =>
    match semverOfJV version with
    | none => .error (.invalidSemver (jsToString version))
    | some actual =>
      if semverGt actual maxSupported then
        .error (.versionMismatch maxSupported.render actual.render)
      else
        let errs := schemaValidate schema assmbly "instance"
        if errs = [] then .ok () else .error (.invalidManifest errs)

/-- Load manifest from file (`Manifest.load`). The parameter `stored` is the
parsed content of the file; the legacy shape normalizer runs first (a thrown
`TypeError` escapes the load), then `_validate` receives the wrapper object
`{ manifest: raw }` and the version field read from the document, and on
success the normalized document is returned. -/
def load (currentVersion : String) (schema : JSchema) (stored : JValue) :
    Except LoadError JValue :=
  match patchStackTags stored with
  | none => .error .typeError
  | some patched =>
    match jsGetOpt patched "version" with
    | none => .error .typeError
    | some version =>
      match _validate currentVersion schema (.obj [("manifest", patched)]) version with
      | .error e => .error e
      | .ok _ => .ok patched

/-- Loading of an asset manifest (`Manifest.loadAssetManifest`): the same
flow as `load` except that the legacy shape normalizer does not run and the
wrapper passed to `_validate` is `{ assets: raw }`; the version field and the
version-compatibility rule are the same. -/
def loadAssetManifest (currentVersion : String) (schema : JSchema) (stored : JValue) :
    Except LoadError JValue :=
  match jsGetOpt stored "version" with
  | none => .error .typeError
  | some version =>
    match _validate currentVersion schema (.obj [("assets", stored)]) version with
    | .error e => .error e
    | .ok _ => .ok stored

end Manifest

/-- Precedence of single prerelease identifiers, stated as the spec describes
it: numeric identifiers compare by value and order below alphanumeric
identifiers, alphanumeric identifiers compare lexically by character code.
`preIdLater a b` says `a` ranks strictly above `b`. -/
def preIdLater : PreId → PreId → Prop
  | .num m, .num n => n < m
  | .str s, .str t => t.data < s.data
  | .str _, .num _ => True
  | .num _, .str _ => False

/-- Precedence of nonempty prerelease identifier lists, stated as the spec
describes it: identifiers compare left to right, and when one list is a
proper front of the other the longer list ranks above. -/
def preListLater : List PreId → List PreId → Prop
  | _ :: _, [] => True
  | [], _ => False
  | a :: as, b :: bs => preIdLater a b ∨ (a = b ∧ preListLater as bs)

/-- Semantic-version precedence spelled out as the spec words it: numeric
major, minor, patch comparison first, then the prerelease rule (a release
ranks above any prerelease of the same core; prereleases compare
identifier by identifier). -/
def precSpec (a b : SemVer) : Prop :=
  b.major < a.major ∨ (b.major = a.major ∧
    (b.minor < a.minor ∨ (b.minor = a.minor ∧
      (b.patch < a.patch ∨ (b.patch = a.patch ∧
        ((a.prerelease = [] ∧ b.prerelease ≠ []) ∨
          (a.prerelease ≠ [] ∧ b.prerelease ≠ [] ∧
            preListLater a.prerelease b.prerelease)))))))

theorem preIdKey_injective : Function.Injective PreId.key := by
  intro a b h
  cases a with
  | num m =>
      cases b with
      | num n =>
          simp only [PreId.key, toLex_inj, Sum.inl.injEq] at h
          rw [h]
      | str t =>
          simp only [PreId.key, toLex_inj] at h
          exact absurd h (by simp)
  | str s =>
      cases b with
      | num n =>
          simp only [PreId.key, toLex_inj] at h
          exact absurd h (by simp)
      | str t =>
          simp only [PreId.key, toLex_inj, Sum.inr.injEq] at h
          rw [String.ext h]

theorem preIdKey_lt_iff (a b : PreId) : PreId.key b < PreId.key a ↔ preIdLater a b := by
  cases a <;> cases b <;>
    simp only [PreId.key, preIdLater, Sum.Lex.toLex_lt_toLex]
  · constructor
    · intro h; cases h; assumption
    · intro h; exact Sum.Lex.inl h
  · constructor
    · intro h; cases h
    · intro h; exact h.elim
  · constructor
    · intro _; trivial
    · intro _; exact Sum.Lex.sep _ _
  · constructor
    · intro h; cases h; assumption
    · intro h; exact Sum.Lex.inr h

theorem lexLt_cons_iff (a b : ℕ ⊕ₗ List Char) (l m : List (ℕ ⊕ₗ List Char)) :
    List.Lex (· < ·) (a :: l) (b :: m) ↔ a < b ∨ (a = b ∧ List.Lex (· < ·) l m) := by
  constructor
  · intro h
    cases h with
    | cons h => exact Or.inr ⟨rfl, h⟩
    | rel h => exact Or.inl h
  · rintro (h | ⟨rfl, h⟩)
    · exact List.Lex.rel h
    · exact List.Lex.cons h

theorem preList_lt_iff : ∀ p q : List PreId,
    List.Lex (· < ·) (q.map PreId.key) (p.map PreId.key) ↔ preListLater p q
  | x :: xs, [] => by
      simp only [List.map_nil, List.map_cons, preListLater]
      exact ⟨fun _ => trivial, fun _ => List.Lex.nil⟩
  | [], [] => by
      simp only [List.map_nil, preListLater]
      exact ⟨fun h => List.Lex.not_nil_right _ _ h, False.elim⟩
  | [], y :: ys => by
      simp only [List.map_nil, List.map_cons, preListLater]
      exact ⟨fun h => List.Lex.not_nil_right _ _ h, False.elim⟩
  | x :: xs, y :: ys => by
      rw [List.map_cons, List.map_cons, lexLt_cons_iff]
      simp only [preListLater]
      constructor
      · rintro (h | ⟨he, h⟩)
        · exact Or.inl ((preIdKey_lt_iff x y).mp h)
        · exact Or.inr ⟨(preIdKey_injective he).symm, (preList_lt_iff xs ys).mp h⟩
      · rintro (h | ⟨rfl, h⟩)
        · exact Or.inl ((preIdKey_lt_iff x y).mpr h)
        · exact Or.inr ⟨rfl, (preList_lt_iff xs ys).mpr h⟩

theorem preClause_iff (p q : List PreId) :
    (toLex (q.isEmpty, q.map PreId.key) : Bool ×ₗ List (ℕ ⊕ₗ List Char))
        < toLex (p.isEmpty, p.map PreId.key)
      ↔ ((p = [] ∧ q ≠ []) ∨ (p ≠ [] ∧ q ≠ [] ∧ preListLater p q)) := by
  rw [Prod.Lex.lt_iff]
  match p, q with
  | [], [] => simp [preListLater, List.isEmpty, Bool.lt_iff, lt_self_iff_false]
  | [], y :: ys => simp [List.isEmpty, Bool.lt_iff]
  | x :: xs, [] => simp [List.isEmpty, Bool.lt_iff]
  | x :: xs, y :: ys =>
      simp only [List.isEmpty, Bool.lt_iff, and_false, false_and, false_or, true_and,
        reduceCtorEq]
      rw [show (List.map PreId.key (y :: ys) < List.map PreId.key (x :: xs)) =
            List.Lex (· < ·) (List.map PreId.key (y :: ys)) (List.map PreId.key (x :: xs))
          from rfl, preList_lt_iff]
      simp

theorem semverKey_injective : Function.Injective SemVer.key := by
  intro a b h
  simp only [SemVer.key, toLex_inj, Prod.mk.injEq] at h
  obtain ⟨h1, h2, h3, _, h5⟩ := h
  have h6 : a.prerelease = b.prerelease := List.map_injective_iff.mpr preIdKey_injective h5
  cases a; cases b
  simp_all

theorem semverGt_iff_key (a b : SemVer) : semverGt a b = true ↔ SemVer.key b < SemVer.key a := by
  simp [semverGt]

theorem semverGt_irrefl (a : SemVer) : semverGt a a = false := by
  simp [semverGt]

/-- Claim C9 — the version comparator decides strict semantic-version
precedence and is a strict total order: it is irreflexive, transitive,
asymmetric and trichotomous on parsed versions; `semverGt a b` holds exactly
when `a` ranks above `b` under the spec precedence (numeric major, minor,
patch comparison first, then the prerelease rule); and the concrete examples
of the spec hold: 2.0.0 > 1.9.9, 1.2.0 > 1.1.9 and 1.0.0-beta < 1.0.0. -/
theorem C9_compareGreaterThan_strict_total_order :
    (∀ a : SemVer, semverGt a a = false) ∧
    (∀ a b c : SemVer, semverGt a b = true → semverGt b c = true → semverGt a c = true) ∧
    (∀ a b : SemVer, semverGt a b = true → semverGt b a = false) ∧
    (∀ a b : SemVer, a ≠ b → semverGt a b = true ∨ semverGt b a = true) ∧
    (∀ a b : SemVer, semverGt a b = true ↔ precSpec a b) ∧
    (semverValid "2.0.0" = some ⟨2, 0, 0, []⟩ ∧ semverValid "1.9.9" = some ⟨1, 9, 9, []⟩ ∧
      semverGt ⟨2, 0, 0, []⟩ ⟨1, 9, 9, []⟩ = true) ∧
    (semverValid "1.2.0" = some ⟨1, 2, 0, []⟩ ∧ semverValid "1.1.9" = some ⟨1, 1, 9, []⟩ ∧
      semverGt ⟨1, 2, 0, []⟩ ⟨1, 1, 9, []⟩ = true) ∧
    (semverValid "1.0.0-beta" = some ⟨1, 0, 0, [.str "beta"]⟩ ∧
      semverValid "1.0.0" = some ⟨1, 0, 0, []⟩ ∧
      semverGt ⟨1, 0, 0, []⟩ ⟨1, 0, 0, [.str "beta"]⟩ = true ∧
      semverGt ⟨1, 0, 0, [.str "beta"]⟩ ⟨1, 0, 0, []⟩ = false) := by
  refine ⟨semverGt_irrefl, ?_, ?_, ?_, ?_, by decide, by decide, by decide⟩
  · intro a b c hab hbc
    rw [semverGt_iff_key] at hab hbc ⊢
    exact lt_trans hbc hab
  · intro a b hab
    rw [semverGt_iff_key] at hab
    simp only [semverGt]
    simp only [decide_eq_false_iff_not]
    exact lt_asymm hab
  · intro a b hne
    have hkey : SemVer.key a ≠ SemVer.key b := fun h => hne (semverKey_injective h)
    rcases lt_or_gt_of_ne hkey with h | h
    · exact Or.inr ((semverGt_iff_key b a).mpr h)
    · exact Or.inl ((semverGt_iff_key a b).mpr h)
  · intro a b
    rw [semverGt_iff_key]
    show (toLex _ < toLex _) ↔ _
    rw [Prod.Lex.lt_iff]
    unfold precSpec
    exact or_congr Iff.rfl (and_congr Iff.rfl ((Prod.Lex.lt_iff _ _).trans
      (or_congr Iff.rfl (and_congr Iff.rfl ((Prod.Lex.lt_iff _ _).trans
        (or_congr Iff.rfl (and_congr Iff.rfl (preClause_iff _ _))))))))

/-- Witness for C9: transitivity applied at concrete parsed versions. -/
theorem C9_compareGreaterThan_strict_total_order_witness :
    semverGt ⟨3, 0, 0, []⟩ ⟨1, 0, 0, []⟩ = true :=
  C9_compareGreaterThan_strict_total_order.2.1 ⟨3, 0, 0, []⟩ ⟨2, 0, 0, []⟩ ⟨1, 0, 0, []⟩
    (by decide) (by decide)

theorem mapM_some_map {α β : Type} (f : α → Option β) (g : α → β) :
    ∀ xs : List α, (∀ x ∈ xs, f x = some (g x)) → xs.mapM f = some (xs.map g)
  | [], _ => by rw [List.mapM_nil]; rfl
  | x :: xs, h => by
      have hx := h x (List.mem_cons_self x xs)
      have hxs := mapM_some_map f g xs (fun y hy => h y (List.mem_cons_of_mem x hy))
      rw [List.mapM_cons, hx, hxs]
      rfl

theorem mapM_some_id {α : Type} (f : α → Option α) (xs : List α)
    (h : ∀ x ∈ xs, f x = some x) : xs.mapM f = some xs := by
  have := mapM_some_map f id xs h
  rwa [List.map_id] at this

theorem setFieldList_self : ∀ (fs : List (String × JValue)) (k : String) (v : JValue),
    jsLookup fs k = some v → setFieldList fs k v = fs
  | [], k, v, h => by simp [jsLookup] at h
  | (k', v') :: rest, k, v, h => by
      by_cases hk : k' = k
      · subst hk
        simp only [jsLookup, eq_self_iff_true, if_true, Option.some.injEq] at h
        simp [setFieldList, h]
      · simp only [jsLookup, if_neg hk] at h
        simp [setFieldList, hk, setFieldList_self rest k v h]

/-- Entries the normalizer leaves unchanged without throwing: anything that is
not a stack-tags object entry, and stack-tags entries whose `data` payload is
falsy or the empty array (`null` and `undefined` entries would throw on the
property access). -/
def entryUntouched : JValue → Bool
  | .null => false
  | .undefined => false
  | .obj fs =>
      if (jsLookup fs "type").getD .undefined = .str STACK_TAGS then
        match jsLookup fs "data" with
        | none => true
        | some d => if truthy d then decide (d = .arr []) else true
      else true
  | _ => true

theorem patchMetadataEntry_untouched :
    ∀ e, entryUntouched e = true → patchMetadataEntry e = some e := by
  intro e h
  match e with
  | .null => simp [entryUntouched] at h
  | .undefined => simp [entryUntouched] at h
  | .bool _ => simp [patchMetadataEntry, jsGetOpt]
  | .num _ => simp [patchMetadataEntry, jsGetOpt]
  | .str _ => simp [patchMetadataEntry, jsGetOpt]
  | .arr _ => simp [patchMetadataEntry, jsGetOpt]
  | .obj fs =>
      simp only [entryUntouched] at h
      simp only [patchMetadataEntry, jsGetOpt]
      by_cases hty : (jsLookup fs "type").getD .undefined = .str STACK_TAGS
      · rw [if_pos hty] at h
        rw [if_pos hty]
        cases hd : jsLookup fs "data" with
        | none => simp [hd, truthy]
        | some d =>
            simp only [hd] at h
            simp only [hd, Option.getD_some]
            by_cases htr : truthy d
            · rw [if_pos htr] at h
              have hde : d = .arr [] := of_decide_eq_true h
              subst hde
              rw [if_pos htr]
              show some (jsSet (JValue.obj fs) "data" (JValue.arr [])) = some (JValue.obj fs)
              simp only [jsSet]
              rw [setFieldList_self fs "data" (.arr []) hd]
            · rw [if_neg htr]
      · rw [if_neg hty] at h ⊢

/-- Metadata record values the normalizer passes through unchanged: arrays of
untouched entries and strings (whose characters are never stack-tags
entries); every other value would throw in the entry loop. -/
def metaValUntouched : JValue → Bool
  | .arr xs => xs.all entryUntouched
  | .str _ => true
  | _ => false

theorem patchMetadataEntries_untouched :
    ∀ v, metaValUntouched v = true → patchMetadataEntries v = some v := by
  intro v h
  match v with
  | .arr xs =>
      simp only [metaValUntouched, List.all_eq_true] at h
      simp only [patchMetadataEntries]
      rw [mapM_some_id _ xs (fun e he => patchMetadataEntry_untouched e (h e he))]
      rfl
  | .str s =>
      simp only [patchMetadataEntries]
      have hme : ∀ e ∈ s.data.map (fun c => JValue.str (String.mk [c])),
          patchMetadataEntry e = some e := by
        intro e he
        obtain ⟨c, _, rfl⟩ := List.mem_map.mp he
        exact patchMetadataEntry_untouched _ rfl
      rw [mapM_some_id _ _ hme]
      rfl
  | .null => simp [metaValUntouched] at h
  | .undefined => simp [metaValUntouched] at h
  | .bool _ => simp [metaValUntouched] at h
  | .num _ => simp [metaValUntouched] at h
  | .obj _ => simp [metaValUntouched] at h

/-- Artifacts the normalizer passes through unchanged: non-object artifacts
other than `null`/`undefined` (their `type` reads as `undefined`), non-stack
artifacts, and stack artifacts whose metadata record is absent, falsy, or
made of untouched values. -/
def artifactUntouched : JValue → Bool
  | .null => false
  | .undefined => false
  | .obj fs =>
      if (jsLookup fs "type").getD .undefined = .str AWS_CLOUDFORMATION_STACK then
        match jsLookup fs "metadata" with
        | none => true
        | some md =>
          if truthy md then
            match md with
            | .obj gs => gs.all (fun kv => metaValUntouched kv.2)
            | .arr xs => xs.all metaValUntouched
            | _ => true
          else true
      else true
  | _ => true

theorem patchArtifact_untouched :
    ∀ a, artifactUntouched a = true → patchArtifact a = some a := by
  intro a h
  match a with
  | .null => simp [artifactUntouched] at h
  | .undefined => simp [artifactUntouched] at h
  | .bool _ => simp [patchArtifact, jsGetOpt]
  | .num _ => simp [patchArtifact, jsGetOpt]
  | .str _ => simp [patchArtifact, jsGetOpt]
  | .arr _ => simp [patchArtifact, jsGetOpt]
  | .obj fs =>
      simp only [artifactUntouched] at h
      simp only [patchArtifact, jsGetOpt]
      by_cases hty : (jsLookup fs "type").getD .undefined = .str AWS_CLOUDFORMATION_STACK
      · rw [if_pos hty] at h
        rw [if_pos hty]
        cases hd : jsLookup fs "metadata" with
        | none => simp [hd, truthy]
        | some md =>
            simp only [hd] at h
            simp only [hd, Option.getD_some]
            by_cases htr : truthy md
            · rw [if_pos htr] at h
              rw [if_pos htr]
              match md, htr, h with
              | .obj gs, htr, h =>
                  dsimp only
                  simp only [List.all_eq_true] at h
                  have hmm : ∀ kv ∈ gs,
                      (patchMetadataEntries kv.2).map (fun v => (kv.1, v)) = some kv := by
                    intro kv hkv
                    rw [patchMetadataEntries_untouched kv.2 (h kv hkv)]
                    simp
                  rw [mapM_some_id _ gs hmm]
                  dsimp only
                  simp only [jsSet]
                  rw [setFieldList_self fs "metadata" (.obj gs) hd]
              | .arr xs, htr, h =>
                  dsimp only
                  simp only [List.all_eq_true] at h
                  rw [mapM_some_id _ xs (fun x hx => patchMetadataEntries_untouched x (h x hx))]
                  dsimp only
                  simp only [jsSet]
                  rw [setFieldList_self fs "metadata" (.arr xs) hd]
              | .str s, htr, h =>
                  dsimp only
                  have hme : ∀ e ∈ s.data.map (fun c => JValue.str (String.mk [c])),
                      patchMetadataEntries e = some e := by
                    intro e he
                    obtain ⟨c, _, rfl⟩ := List.mem_map.mp he
                    exact patchMetadataEntries_untouched _ rfl
                  rw [mapM_some_id _ _ hme]
              | .bool b, htr, h => rfl
              | .num n, htr, h => rfl
            · rw [if_neg htr]
      · rw [if_neg hty] at h ⊢

/-- Documents the normalizer maps to themselves without throwing. -/
def manifestUntouched : JValue → Bool
  | .null => false
  | .undefined => false
  | .obj fs =>
      match jsLookup fs "artifacts" with
      | none => true
      | some arts =>
        if truthy arts then
          match arts with
          | .obj gs => gs.all (fun kv => artifactUntouched kv.2)
          | .arr xs => xs.all artifactUntouched
          | _ => true
        else true
  | _ => true

theorem patchStackTags_untouched :
    ∀ m, manifestUntouched m = true → Manifest.patchStackTags m = some m := by
  intro m h
  match m with
  | .null => simp [manifestUntouched] at h
  | .undefined => simp [manifestUntouched] at h
  | .bool _ => simp [Manifest.patchStackTags, jsGetOpt]
  | .num _ => simp [Manifest.patchStackTags, jsGetOpt]
  | .str _ => simp [Manifest.patchStackTags, jsGetOpt]
  | .arr _ => simp [Manifest.patchStackTags, jsGetOpt]
  | .obj fs =>
      simp only [manifestUntouched] at h
      simp only [Manifest.patchStackTags, jsGetOpt]
      cases hd : jsLookup fs "artifacts" with
      | none => simp [hd, truthy]
      | some arts =>
          simp only [hd] at h
          simp only [hd, Option.getD_some]
          by_cases htr : truthy arts
          · rw [if_pos htr] at h
            rw [if_pos htr]
            match arts, htr, h with
            | .obj gs, htr, h =>
                dsimp only
                simp only [List.all_eq_true] at h
                have hmm : ∀ kv ∈ gs,
                    (patchArtifact kv.2).map (fun v => (kv.1, v)) = some kv := by
                  intro kv hkv
                  rw [patchArtifact_untouched kv.2 (h kv hkv)]
                  simp
                rw [mapM_some_id _ gs hmm]
                dsimp only
                simp only [jsSet]
                rw [setFieldList_self fs "artifacts" (.obj gs) hd]
            | .arr xs, htr, h =>
                dsimp only
                simp only [List.all_eq_true] at h
                rw [mapM_some_id _ xs (fun x hx => patchArtifact_untouched x (h x hx))]
                dsimp only
                simp only [jsSet]
                rw [setFieldList_self fs "artifacts" (.arr xs) hd]
            | .str s, htr, h =>
                dsimp only
                have hme : ∀ e ∈ s.data.map (fun c => JValue.str (String.mk [c])),
                    patchArtifact e = some e := by
                  intro e he
                  obtain ⟨c, _, rfl⟩ := List.mem_map.mp he
                  exact patchArtifact_untouched _ rfl
                rw [mapM_some_id _ _ hme]
            | .bool b, htr, h => rfl
            | .num n, htr, h => rfl
          · rw [if_neg htr]

/-- Sparse-document condition 1: the document has no `artifacts` field. -/
def NoArtifactsField (fs : List (String × JValue)) : Prop := jsLookup fs "artifacts" = none

/-- Sparse-document condition 2: every artifact is an object, and the
cloud-stack ones carry no `metadata` field. -/
def CloudStackArtifactsNoMetadata (fs : List (String × JValue)) : Prop :=
  ∃ arts, jsLookup fs "artifacts" = some (.obj arts) ∧
    ∀ kv ∈ arts, ∃ afs, kv.2 = JValue.obj afs ∧
      ((jsLookup afs "type").getD .undefined = .str AWS_CLOUDFORMATION_STACK →
        jsLookup afs "metadata" = none)

/-- Sparse-document condition 3: every artifact is an object and, in the
cloud-stack ones, the metadata record (when present) is a record of entry
lists whose stack-tags entries carry a missing, falsy, or empty `data`
payload. -/
def StackTagsSparseData (fs : List (String × JValue)) : Prop :=
  ∃ arts, jsLookup fs "artifacts" = some (.obj arts) ∧
    ∀ kv ∈ arts, ∃ afs, kv.2 = JValue.obj afs ∧
      ((jsLookup afs "type").getD .undefined = .str AWS_CLOUDFORMATION_STACK →
        (jsLookup afs "metadata" = none ∨
          ∃ mfs, jsLookup afs "metadata" = some (.obj mfs) ∧
            ∀ me ∈ mfs, ∃ entries, me.2 = JValue.arr entries ∧
              ∀ e ∈ entries, ∃ efs, e = JValue.obj efs ∧
                ((jsLookup efs "type").getD .undefined = .str STACK_TAGS →
                  ∀ d, jsLookup efs "data" = some d → (truthy d = false ∨ d = .arr []))))

theorem entryUntouched_of (efs : List (String × JValue))
    (h : (jsLookup efs "type").getD .undefined = .str STACK_TAGS →
      ∀ d, jsLookup efs "data" = some d → (truthy d = false ∨ d = .arr [])) :
    entryUntouched (.obj efs) = true := by
  simp only [entryUntouched]
  by_cases hty : (jsLookup efs "type").getD .undefined = .str STACK_TAGS
  · rw [if_pos hty]
    cases hd : jsLookup efs "data" with
    | none => rfl
    | some d =>
        rcases h hty d hd with h1 | h1
        · simp [h1]
        · subst h1; simp
  · rw [if_neg hty]

theorem artifactUntouched_of (afs : List (String × JValue))
    (h : (jsLookup afs "type").getD .undefined = .str AWS_CLOUDFORMATION_STACK →
      (jsLookup afs "metadata" = none ∨
        ∃ mfs, jsLookup afs "metadata" = some (.obj mfs) ∧
          ∀ me ∈ mfs, ∃ entries, me.2 = JValue.arr entries ∧
            ∀ e ∈ entries, entryUntouched e = true)) :
    artifactUntouched (.obj afs) = true := by
  simp only [artifactUntouched]
  by_cases hty : (jsLookup afs "type").getD .undefined = .str AWS_CLOUDFORMATION_STACK
  · rw [if_pos hty]
    rcases h hty with h1 | ⟨mfs, h1, h2⟩
    · rw [h1]
    · rw [h1]
      show (if truthy (JValue.obj mfs) = true then mfs.all (fun kv => metaValUntouched kv.2)
        else true) = true
      rw [if_pos (show truthy (JValue.obj mfs) = true from rfl), List.all_eq_true]
      intro me hme
      obtain ⟨entries, he, hents⟩ := h2 me hme
      rw [he]
      simp only [metaValUntouched, List.all_eq_true]
      exact fun e hee => hents e hee
  · rw [if_neg hty]

/-- Claim C10 — the Legacy Shape Normalizer is total on structurally sparse
documents: when the `artifacts` field is absent, or every cloud-stack
artifact carries no `metadata` field, or every stack-tags metadata entry of
every cloud-stack artifact carries a missing, falsy, or empty `data` payload,
normalization returns the document unchanged and throws no error. -/
theorem C10_patchStackTags_total_on_sparse (fs : List (String × JValue))
    (h : NoArtifactsField fs ∨ CloudStackArtifactsNoMetadata fs ∨ StackTagsSparseData fs) :
    Manifest.patchStackTags (.obj fs) = some (.obj fs) := by
  apply patchStackTags_untouched
  simp only [manifestUntouched]
  rcases h with h | ⟨arts, ha, h⟩ | ⟨arts, ha, h⟩
  · rw [h]
  · rw [ha]
    show (if truthy (JValue.obj arts) = true then arts.all (fun kv => artifactUntouched kv.2)
      else true) = true
    rw [if_pos (show truthy (JValue.obj arts) = true from rfl), List.all_eq_true]
    intro kv hkv
    obtain ⟨afs, hback, hcond⟩ := h kv hkv
    rw [hback]
    exact artifactUntouched_of afs (fun hty => Or.inl (hcond hty))
  · rw [ha]
    show (if truthy (JValue.obj arts) = true then arts.all (fun kv => artifactUntouched kv.2)
      else true) = true
    rw [if_pos (show truthy (JValue.obj arts) = true from rfl), List.all_eq_true]
    intro kv hkv
    obtain ⟨afs, hback, hcond⟩ := h kv hkv
    rw [hback]
    apply artifactUntouched_of afs
    intro hty
    rcases hcond hty with h1 | ⟨mfs, h1, h2⟩
    · exact Or.inl h1
    · refine Or.inr ⟨mfs, h1, fun me hme => ?_⟩
      obtain ⟨entries, he, hents⟩ := h2 me hme
      refine ⟨entries, he, fun e hee => ?_⟩
      obtain ⟨efs, herm, hcond2⟩ := hents e hee
      rw [herm]
      exact entryUntouched_of efs hcond2

/-- Witness for C10: a document whose `artifacts` field is absent passes
through the normalizer unchanged. -/
theorem C10_patchStackTags_total_on_sparse_witness :
    Manifest.patchStackTags (.obj [("version", .str "1.0.0")])
      = some (.obj [("version", .str "1.0.0")]) :=
  C10_patchStackTags_total_on_sparse [("version", .str "1.0.0")] (Or.inl rfl)

/-- Document with one cloud-stack artifact carrying a legacy-cased stack-tags
payload. -/
def c3Doc : JValue := .obj [("artifacts", .obj [("s", .obj [
  ("type", .str AWS_CLOUDFORMATION_STACK),
  ("metadata", .obj [("m", .arr [.obj [("type", .str STACK_TAGS),
    ("data", .arr [.obj [("Key", .str "env"), ("Value", .str "prod")]])]])])])])]

/-- Result of one normalizer pass over `c3Doc`: the payload is canonical. -/
def c3Doc1 : JValue := .obj [("artifacts", .obj [("s", .obj [
  ("type", .str AWS_CLOUDFORMATION_STACK),
  ("metadata", .obj [("m", .arr [.obj [("type", .str STACK_TAGS),
    ("data", .arr [.obj [("key", .str "env"), ("value", .str "prod")]])]])])])])]

/-- Result of a second normalizer pass: the already-canonical payload element
is rewritten again, to a pair of `undefined` fields. -/
def c3Doc2 : JValue := .obj [("artifacts", .obj [("s", .obj [
  ("type", .str AWS_CLOUDFORMATION_STACK),
  ("metadata", .obj [("m", .arr [.obj [("type", .str STACK_TAGS),
    ("data", .arr [.obj [("key", .undefined), ("value", .undefined)]])]])])])])]

/-- Counterexample to claim C3 as stated: the normalizer is not idempotent.
One pass turns the legacy payload of `c3Doc` into the canonical `c3Doc1`, but
a second pass does not leave `c3Doc1` unchanged — the canonical element,
which lacks the capitalized fields, is rewritten to
`[|key: undefined, value: undefined|]`, so applying the normalizer twice
differs from applying it once. -/
theorem C3_patchStackTags_not_idempotent_counterexample :
    Manifest.patchStackTags c3Doc = some c3Doc1 ∧
    Manifest.patchStackTags c3Doc1 = some c3Doc2 ∧
    c3Doc2 ≠ c3Doc1 := by decide

/-- Claim C3 amended — payload entries lacking the capitalized fields are not
left untouched (they are rewritten to a pair of `undefined` fields), so the
normalizer is idempotent only on documents it leaves unchanged: on every
document with no truthy stack-tags payload under a cloud-stack artifact,
applying it twice equals applying it once. -/
theorem C3_patchStackTags_idempotent_on_untouched (m : JValue)
    (h : manifestUntouched m = true) :
    (Manifest.patchStackTags m).bind Manifest.patchStackTags = Manifest.patchStackTags m := by
  have hp := patchStackTags_untouched m h
  rw [hp]
  show Manifest.patchStackTags m = some m
  exact hp

/-- Witness for the amended C3 at a concrete sparse document. -/
theorem C3_patchStackTags_idempotent_on_untouched_witness :
    (Manifest.patchStackTags (.obj [("artifacts", .obj [])])).bind Manifest.patchStackTags
      = Manifest.patchStackTags (.obj [("artifacts", .obj [])]) :=
  C3_patchStackTags_idempotent_on_untouched (.obj [("artifacts", .obj [])]) (by decide)

theorem patchTag_eq (t : JValue) (h1 : t ≠ .null) (h2 : t ≠ .undefined) :
    patchTag t = some (.obj [("key", jsGetD t "Key"), ("value", jsGetD t "Value")]) := by
  match t with
  | .null => exact absurd rfl h1
  | .undefined => exact absurd rfl h2
  | .bool _ => rfl
  | .num _ => rfl
  | .str _ => rfl
  | .arr _ => rfl
  | .obj _ => rfl

/-- Document with a stack-tags payload element that carries an extra
`propagate` field besides the capitalized pair. -/
def c4CxDoc : JValue := .obj [("artifacts", .obj [("s", .obj [
  ("type", .str AWS_CLOUDFORMATION_STACK),
  ("metadata", .obj [("m", .arr [.obj [("type", .str STACK_TAGS),
    ("data", .arr [.obj [("Key", .str "env"), ("Value", .str "prod"),
      ("propagate", .bool true)]])]])])])])]

/-- What the normalizer actually produces from `c4CxDoc`: the `propagate`
field of the payload element is discarded. -/
def c4CxRes : JValue := .obj [("artifacts", .obj [("s", .obj [
  ("type", .str AWS_CLOUDFORMATION_STACK),
  ("metadata", .obj [("m", .arr [.obj [("type", .str STACK_TAGS),
    ("data", .arr [.obj [("key", .str "env"), ("value", .str "prod")]])]])])])])]

/-- What claim C4 predicts for `c4CxDoc`: the other fields of each payload
element preserved alongside the renamed pair. -/
def c4CxResClaim : JValue := .obj [("artifacts", .obj [("s", .obj [
  ("type", .str AWS_CLOUDFORMATION_STACK),
  ("metadata", .obj [("m", .arr [.obj [("type", .str STACK_TAGS),
    ("data", .arr [.obj [("key", .str "env"), ("value", .str "prod"),
      ("propagate", .bool true)]])]])])])])]

/-- Counterexample to claim C4 as stated: the rewritten payload element does
not preserve the other fields of the element — the `propagate` field is
dropped, so the produced document differs from the one the claim predicts. -/
theorem C4_patchStackTags_drops_other_fields_counterexample :
    Manifest.patchStackTags c4CxDoc = some c4CxRes ∧ c4CxRes ≠ c4CxResClaim := by decide

/-- The spec example document: a cloud-stack artifact with stack-tags payload
`[ Key: env / Value: prod ]`. -/
def c4SpecDoc : JValue := .obj [("artifacts", .obj [("s", .obj [
  ("type", .str AWS_CLOUDFORMATION_STACK),
  ("metadata", .obj [("m", .arr [.obj [("type", .str STACK_TAGS),
    ("data", .arr [.obj [("Key", .str "env"), ("Value", .str "prod")]])]])])])])]

/-- The spec example result: the payload becomes `[ key: env / value: prod ]`. -/
def c4SpecRes : JValue := .obj [("artifacts", .obj [("s", .obj [
  ("type", .str AWS_CLOUDFORMATION_STACK),
  ("metadata", .obj [("m", .arr [.obj [("type", .str STACK_TAGS),
    ("data", .arr [.obj [("key", .str "env"), ("value", .str "prod")]])]])])])])]

/-- Claim C4 amended — for a stack-tags metadata entry with an array payload
(whose elements are not `null`/`undefined`), the normalizer replaces each
payload element `t`, in order, with exactly the object
`[|key: t.Key, value: t.Value|]` (the fields holding `undefined` when absent),
discarding every other field of the element; in particular the spec example
payload `[ Key: env / Value: prod ]` becomes `[ key: env / value: prod ]`. -/
theorem C4_patchStackTags_rewrites_payload (efs : List (String × JValue)) (xs : List JValue)
    (hty : (jsLookup efs "type").getD .undefined = .str STACK_TAGS)
    (hd : jsLookup efs "data" = some (.arr xs))
    (hsafe : ∀ t ∈ xs, t ≠ .null ∧ t ≠ .undefined) :
    (patchMetadataEntry (.obj efs) = some (.obj (setFieldList efs "data" (.arr (xs.map
      (fun t => .obj [("key", jsGetD t "Key"), ("value", jsGetD t "Value")])))))) ∧
    Manifest.patchStackTags c4SpecDoc = some c4SpecRes := by
  constructor
  · simp only [patchMetadataEntry, jsGetOpt]
    rw [if_pos hty]
    simp only [hd, Option.getD_some]
    rw [if_pos (show truthy (JValue.arr xs) = true from rfl)]
    rw [mapM_some_map patchTag _ xs (fun t ht => patchTag_eq t (hsafe t ht).1 (hsafe t ht).2)]
    rfl
  · decide

/-- Witness for the amended C4 at a concrete stack-tags entry. -/
theorem C4_patchStackTags_rewrites_payload_witness :
    patchMetadataEntry (.obj [("type", .str STACK_TAGS),
        ("data", .arr [.obj [("Key", .str "a")]])])
      = some (.obj [("type", .str STACK_TAGS),
        ("data", .arr [.obj [("key", .str "a"), ("value", .undefined)]])]) :=
  (C4_patchStackTags_rewrites_payload
    [("type", .str STACK_TAGS), ("data", .arr [.obj [("Key", .str "a")]])]
    [.obj [("Key", .str "a")]] (by decide) (by decide) (by decide)).1

/-- Claim C5 — the code violates it. `save` builds the object literal
`[| version: Manifest.version(), ...manifest |]`, and the spread follows the
stamp, so a `version` field of the caller document overwrites the injected
current-version value (while keeping the first position). With current
version `10.0.0` and a caller document carrying `version: 0.0.1`, the
persisted document keeps `0.0.1` — not the document the claim predicts, which
carries the build constant. -/
theorem C5_save_keeps_caller_version :
    Manifest.save "10.0.0" (.obj [("version", .str "0.0.1"), ("artifacts", .obj [])])
      = .obj [("version", .str "0.0.1"), ("artifacts", .obj [])] ∧
    (JValue.obj [("version", .str "0.0.1"), ("artifacts", .obj [])])
      ≠ .obj [("version", .str "10.0.0"), ("artifacts", .obj [])] := by decide

theorem jsLookup_none_ne : ∀ (fs : List (String × JValue)) (k : String),
    jsLookup fs k = none → ∀ kv ∈ fs, kv.1 ≠ k
  | [], _, _, kv, hm => absurd hm (List.not_mem_nil kv)
  | (k', v') :: rest, k, h, kv, hm => by
      simp only [jsLookup] at h
      by_cases hk : k' = k
      · rw [if_pos hk] at h
        exact absurd h (by simp)
      · rw [if_neg hk] at h
        rcases List.mem_cons.mp hm with rfl | hm2
        · exact hk
        · exact jsLookup_none_ne rest k h kv hm2

theorem jsLookup_append_none (a b : List (String × JValue)) (k : String)
    (ha : jsLookup a k = none) (hb : jsLookup b k = none) :
    jsLookup (a ++ b) k = none := by
  induction a with
  | nil => simpa using hb
  | cons kv rest ih =>
      obtain ⟨k', v'⟩ := kv
      simp only [jsLookup, List.cons_append] at ha ⊢
      by_cases hk : k' = k
      · rw [if_pos hk] at ha
        exact absurd ha (by simp)
      · rw [if_neg hk] at ha ⊢
        exact ih ha

theorem setFieldList_append (acc : List (String × JValue)) (k : String) (v : JValue)
    (h : jsLookup acc k = none) : setFieldList acc k v = acc ++ [(k, v)] := by
  induction acc with
  | nil => rfl
  | cons kv rest ih =>
      obtain ⟨k', v'⟩ := kv
      simp only [jsLookup] at h
      by_cases hk : k' = k
      · rw [if_pos hk] at h
        exact absurd h (by simp)
      · rw [if_neg hk] at h
        simp only [setFieldList, if_neg hk, List.cons_append]
        rw [ih h]

theorem foldl_set_append : ∀ (fs acc : List (String × JValue)),
    (∀ kv ∈ fs, jsLookup acc kv.1 = none) → (fs.map Prod.fst).Nodup →
    fs.foldl (fun a kv => setFieldList a kv.1 kv.2) acc = acc ++ fs
  | [], acc, _, _ => by simp
  | (k, v) :: rest, acc, h, hnd => by
      simp only [List.foldl_cons]
      rw [setFieldList_append acc k v (h (k, v) (List.mem_cons_self _ _))]
      have hnd2 : (rest.map Prod.fst).Nodup := by
        simp only [List.map_cons, List.nodup_cons] at hnd
        exact hnd.2
      have hknotin : k ∉ rest.map Prod.fst := by
        simp only [List.map_cons, List.nodup_cons] at hnd
        exact hnd.1
      have h2 : ∀ kv ∈ rest, jsLookup (acc ++ [(k, v)]) kv.1 = none := by
        intro kv hm
        apply jsLookup_append_none
        · exact h kv (List.mem_cons_of_mem _ hm)
        · have hne : kv.1 ≠ k := fun he => hknotin (he ▸ List.mem_map_of_mem Prod.fst hm)
          simp only [jsLookup, if_neg (Ne.symm hne)]
      rw [foldl_set_append rest (acc ++ [(k, v)]) h2 hnd2]
      simp

/-- Shape of a save when the caller document carries no `version` field, no
`undefined` values, and no duplicate keys: the persisted document is the
caller document with the stamped version field in front. -/
theorem save_stamped (cv : String) (fs : List (String × JValue))
    (hnover : jsLookup fs "version" = none)
    (hnd : (fs.map Prod.fst).Nodup)
    (hnorm : jsonNormalize (.obj fs) = .obj fs) :
    Manifest.save cv (.obj fs) = .obj (("version", .str cv) :: fs) := by
  have hobj : jsonNormalizeObj fs = fs := by
    have h2 := hnorm
    simp only [jsonNormalize] at h2
    injection h2
  have hacc : ∀ kv ∈ fs, jsLookup [("version", JValue.str cv)] kv.1 = none := by
    intro kv hm
    have hne : kv.1 ≠ "version" := jsLookup_none_ne fs "version" hnover kv hm
    simp only [jsLookup, if_neg (Ne.symm hne)]
  simp only [Manifest.save, jsAssignFields]
  rw [foldl_set_append fs [("version", .str cv)] hacc hnd]
  rw [show ([("version", JValue.str cv)] ++ fs) = (("version", JValue.str cv) :: fs) from rfl]
  simp only [jsonNormalize, jsonNormalizeObj]
  rw [hobj]
  rw [if_neg (show JValue.str cv ≠ JValue.undefined by simp)]

/-- Document used to refute the round-trip claim: the caller supplies a
`version` field of its own. -/
def c6CxDoc : JValue := .obj [("version", .str "0.0.0")]

/-- Counterexample to claim C6 as stated: saving a document that carries
`version: 0.0.0` under build version `10.0.0` and loading it back yields the
document with version `0.0.0` (the caller value survives the stamp), not the
document plus an injected version field equal to the current version
constant. -/
theorem C6_round_trip_counterexample :
    Manifest.load "10.0.0" .any (Manifest.save "10.0.0" c6CxDoc)
      = .ok (.obj [("version", .str "0.0.0")]) ∧
    (JValue.obj [("version", .str "0.0.0")]) ≠ .obj [("version", .str "10.0.0")] := by decide

/-- Claim C6 amended — the round trip holds for caller documents that carry
no `version` field of their own (otherwise the caller value overrides the
stamp), carry no `undefined` values or duplicate keys (so serialization is
lossless), are left unchanged by the legacy shape normalizer, and whose
stamped form passes schema validation: then loading after saving returns the
document equal to the input plus an injected leading `version` field holding
the current version constant. -/
theorem C6_load_after_save_stamped (cv : String) (sch : JSchema)
    (fs : List (String × JValue)) (mv : SemVer)
    (hnover : jsLookup fs "version" = none)
    (hnd : (fs.map Prod.fst).Nodup)
    (hnorm : jsonNormalize (.obj fs) = .obj fs)
    (hpatch : Manifest.patchStackTags (.obj (("version", .str cv) :: fs))
      = some (.obj (("version", .str cv) :: fs)))
    (hcv : semverValid cv = some mv)
    (hvalid : schemaValidate sch (.obj [("manifest", .obj (("version", .str cv) :: fs))])
      "instance" = []) :
    Manifest.load cv sch (Manifest.save cv (.obj fs))
      = .ok (.obj (("version", .str cv) :: fs)) := by
  rw [save_stamped cv fs hnover hnd hnorm]
  simp only [Manifest.load, hpatch]
  simp only [jsGetOpt, jsLookup, eq_self_iff_true, if_true, Option.getD_some]
  simp only [Manifest._validate, hcv, semverOfJV]
  simp only [semverGt_irrefl mv, Bool.false_eq_true, if_false]
  simp only [hvalid, eq_self_iff_true, if_true]

/-- Witness for the amended C6 at a concrete document without a version
field. -/
theorem C6_load_after_save_stamped_witness :
    Manifest.load "10.0.0" .any (Manifest.save "10.0.0" (.obj [("artifacts", .obj [])]))
      = .ok (.obj [("version", .str "10.0.0"), ("artifacts", .obj [])]) :=
  C6_load_after_save_stamped "10.0.0" .any [("artifacts", .obj [])] ⟨10, 0, 0, []⟩
    rfl (by decide) (by decide) (by decide) (by decide) (by decide)

theorem beginsWith_append (m r : String) : beginsWith (m ++ r) m = true := by
  simp only [beginsWith, decide_eq_true_eq]
  rw [String.data_append]
  exact List.take_left _ _

theorem take_ne_of_head_ne {c d : Char} {l m : List Char} (h : c ≠ d) :
    (c :: l).take (d :: m).length ≠ d :: m := by
  intro hh
  rw [List.length_cons, List.take_succ_cons] at hh
  injection hh with h1 _
  exact h h1

theorem versionMismatch_message_marker (ms as : String) :
    beginsWith (LoadError.versionMismatch ms as).message VERSION_MISMATCH = true :=
  beginsWith_append VERSION_MISMATCH _

theorem invalidSemver_message_marker (s : String) :
    beginsWith (LoadError.invalidSemver s).message "Invalid semver string" = true := by
  show beginsWith ("Invalid semver string: \"" ++ (s ++ "\"")) "Invalid semver string" = true
  simp only [beginsWith, decide_eq_true_eq]
  rw [String.data_append]
  rw [show ("Invalid semver string: \"" : String).data
    = ("Invalid semver string" : String).data ++ (':' :: ' ' :: '"' :: []) from rfl]
  rw [List.append_assoc]
  exact List.take_left _ _

theorem invalidSemver_not_marker (s : String) :
    beginsWith (LoadError.invalidSemver s).message VERSION_MISMATCH = false := by
  show beginsWith ("Invalid semver string: \"" ++ (s ++ "\"")) VERSION_MISMATCH = false
  simp only [beginsWith, decide_eq_false_iff_not]
  rw [String.data_append]
  rw [show ("Invalid semver string: \"" : String).data
    = 'I' :: ("nvalid semver string: \"" : String).data from rfl]
  rw [show (VERSION_MISMATCH : String).data
    = 'C' :: ("loud assembly schema version mismatch" : String).data from rfl]
  rw [List.cons_append]
  exact take_ne_of_head_ne (by decide)

/-- Document with a version above the current one whose stack-tags payload is
a truthy non-array, so the normalizer throws before the version check. -/
def c1CxDoc : JValue := .obj [("version", .str "99.0.0"),
  ("artifacts", .obj [("a", .obj [("type", .str AWS_CLOUDFORMATION_STACK),
    ("metadata", .obj [("m", .arr [.obj [("type", .str STACK_TAGS),
      ("data", .num 5)]])])])])]

/-- Counterexample to claim C1 as stated: `c1CxDoc` carries a valid version
field strictly greater than the current version `10.0.0`, yet the load fails
with a `TypeError` thrown by the legacy shape normalizer (which runs before
the version check), whose message does not begin with the mismatch marker. -/
theorem C1_version_gate_counterexample :
    semverOfJV (jsGetD c1CxDoc "version") = some ⟨99, 0, 0, []⟩ ∧
    semverValid "10.0.0" = some ⟨10, 0, 0, []⟩ ∧
    semverGt ⟨99, 0, 0, []⟩ ⟨10, 0, 0, []⟩ = true ∧
    Manifest.load "10.0.0" .any c1CxDoc = .error .typeError ∧
    beginsWith (LoadError.typeError).message VERSION_MISMATCH = false := by decide

/-- Claim C1 amended — provided the legacy shape normalizer does not throw on
the document: when the normalized document carries a valid version strictly
greater than the (valid) current version, the load fails with the
version-mismatch error, whose message begins with the literal marker
`Cloud assembly schema version mismatch`; when the version is less than or
equal to the current version and the document passes schema validation, the
load succeeds and returns the normalized document. -/
theorem C1_version_gate (cv : String) (sch : JSchema) (doc p vv : JValue) (mv av : SemVer)
    (hp : Manifest.patchStackTags doc = some p)
    (hv : jsGetOpt p "version" = some vv)
    (hcv : semverValid cv = some mv)
    (hav : semverOfJV vv = some av) :
    (semverGt av mv = true →
      Manifest.load cv sch doc = .error (.versionMismatch mv.render av.render) ∧
      beginsWith (LoadError.versionMismatch mv.render av.render).message
        VERSION_MISMATCH = true) ∧
    (semverGt av mv = false →
      schemaValidate sch (.obj [("manifest", p)]) "instance" = [] →
      Manifest.load cv sch doc = .ok p) := by
  constructor
  · intro hgt
    refine ⟨?_, versionMismatch_message_marker _ _⟩
    simp only [Manifest.load, hp, hv, Manifest._validate, hcv, hav, hgt,
      eq_self_iff_true, if_true]
  · intro hgt hvalid
    simp only [Manifest.load, hp, hv, Manifest._validate, hcv, hav, hgt,
      Bool.false_eq_true, if_false, hvalid, eq_self_iff_true, if_true]

/-- Witness for the amended C1: a document whose version exceeds the current
version fails with the marker-carrying error. -/
theorem C1_version_gate_witness :
    Manifest.load "10.0.0" .any (.obj [("version", .str "11.0.0")])
      = .error (.versionMismatch (SemVer.render ⟨10, 0, 0, []⟩)
          (SemVer.render ⟨11, 0, 0, []⟩)) :=
  ((C1_version_gate "10.0.0" .any (.obj [("version", .str "11.0.0")])
    (.obj [("version", .str "11.0.0")]) (.str "11.0.0") ⟨10, 0, 0, []⟩ ⟨11, 0, 0, []⟩
    (by decide) (by decide) (by decide) (by decide)).1 (by decide)).1

/-- Document with no version field whose stack-tags payload is a truthy
non-array, so the normalizer throws before the version extraction. -/
def c2CxDoc : JValue := .obj [
  ("artifacts", .obj [("a", .obj [("type", .str AWS_CLOUDFORMATION_STACK),
    ("metadata", .obj [("m", .arr [.obj [("type", .str STACK_TAGS),
      ("data", .num 5)]])])])])]

/-- Counterexample to claim C2 as stated: `c2CxDoc` has no version field, yet
the load fails with a `TypeError` thrown by the legacy shape normalizer
(which runs before the version extraction), not with the invalid-semver
error. -/
theorem C2_invalid_version_counterexample :
    jsGetD c2CxDoc "version" = .undefined ∧
    Manifest.load "10.0.0" .any c2CxDoc = .error .typeError ∧
    beginsWith (LoadError.typeError).message "Invalid semver string" = false := by decide

/-- Claim C2 amended — provided the legacy shape normalizer does not throw on
the document: when the version field of the normalized document is absent
(read as `undefined`) or not a valid semantic version, the load fails with
the invalid-semver error raised by version parsing — for every schema
grammar, so before schema validation ever runs — and the message begins with
`Invalid semver string` and not with the version-mismatch marker. -/
theorem C2_invalid_version_before_validation (cv : String) (sch : JSchema)
    (doc p vv : JValue) (mv : SemVer)
    (hp : Manifest.patchStackTags doc = some p)
    (hv : jsGetOpt p "version" = some vv)
    (hcv : semverValid cv = some mv)
    (hbad : semverOfJV vv = none) :
    Manifest.load cv sch doc = .error (.invalidSemver (jsToString vv)) ∧
    beginsWith (LoadError.invalidSemver (jsToString vv)).message
      "Invalid semver string" = true ∧
    beginsWith (LoadError.invalidSemver (jsToString vv)).message VERSION_MISMATCH = false := by
  refine ⟨?_, invalidSemver_message_marker _, invalidSemver_not_marker _⟩
  simp only [Manifest.load, hp, hv, Manifest._validate, hcv, hbad]

/-- Witness for the amended C2: a document with no version field fails with
the invalid-semver error for the rendering `undefined`. -/
theorem C2_invalid_version_before_validation_witness :
    Manifest.load "10.0.0" .any (.obj [("artifacts", .obj [])])
      = .error (.invalidSemver (jsToString .undefined)) :=
  (C2_invalid_version_before_validation "10.0.0" .any (.obj [("artifacts", .obj [])])
    (.obj [("artifacts", .obj [])]) .undefined ⟨10, 0, 0, []⟩
    (by decide) (by decide) (by decide) (by decide)).1

theorem jsLookup_some_mem : ∀ (fs : List (String × JValue)) (k : String) (v : JValue),
    jsLookup fs k = some v → (k, v) ∈ fs
  | [], _, _, h => by simp [jsLookup] at h
  | (k', v') :: rest, k, v, h => by
      simp only [jsLookup] at h
      by_cases hk : k' = k
      · subst hk
        rw [if_pos rfl] at h
        injection h with h
        subst h
        exact List.mem_cons_self _ _
      · rw [if_neg hk] at h
        exact List.mem_cons_of_mem _ (jsLookup_some_mem rest k v h)

/-- Claim C7 — closed-schema rejection and full error aggregation. First, a
document carrying a property not declared by a closed grammar node
(`additionalProperties: false`) never validates cleanly. Second, whenever
validation of the wrapped manifest produces a nonempty error list, the load
fails with a single error carrying that entire list, whose message
concatenates every detected violation, and no document is returned. Third, a
concrete document violating a closed grammar in three ways yields all three
errors, not just the first. -/
theorem C7_closed_schema_and_error_aggregation :
    (∀ (props : List (String × JSchema)) (req : List String) (fs : List (String × JValue))
        (path k : String) (v : JValue),
      jsLookup fs k = some v → lookupSchema props k = none →
      schemaValidate (.objSchema props req false) (.obj fs) path ≠ []) ∧
    (∀ (cv : String) (sch : JSchema) (doc p vv : JValue) (mv av : SemVer) (errs : List String),
      Manifest.patchStackTags doc = some p → jsGetOpt p "version" = some vv →
      semverValid cv = some mv → semverOfJV vv = some av → semverGt av mv = false →
      schemaValidate sch (.obj [("manifest", p)]) "instance" = errs → errs ≠ [] →
      Manifest.load cv sch doc = .error (.invalidManifest errs) ∧
      (LoadError.invalidManifest errs).message
        = "Invalid assembly manifest:" ++ ("\n" ++ String.intercalate "\n" errs)) ∧
    schemaValidate (.objSchema [("a", .prim "string")] ["b"] false)
        (.obj [("a", .num 1), ("c", .null)]) "instance"
      = ["instance requires property b", "instance.a is not of a type string",
         "instance additionalProperty c exists in instance when not allowed"] := by
  refine ⟨?_, ?_, by decide⟩
  · intro props req fs path k v hin hnone
    have hmem : (k, v) ∈ fs.filter (fun kv => (lookupSchema props kv.1).isNone) :=
      List.mem_filter.mpr ⟨jsLookup_some_mem fs k v hin, by simp [hnone]⟩
    simp only [schemaValidate]
    intro hempty
    rw [List.append_eq_nil] at hempty
    obtain ⟨_, h3⟩ := hempty
    rw [if_neg (by simp)] at h3
    rw [List.map_eq_nil_iff] at h3
    rw [h3] at hmem
    exact List.not_mem_nil _ hmem
  · intro cv sch doc p vv mv av errs hp hv hcv hav hgt herrs hne
    refine ⟨?_, rfl⟩
    simp only [Manifest.load, hp, hv, Manifest._validate, hcv, hav, hgt,
      Bool.false_eq_true, if_false, herrs, if_neg hne]

/-- Witness for C7: a concrete undeclared property under an empty closed
grammar makes validation fail. -/
theorem C7_closed_schema_and_error_aggregation_witness :
    schemaValidate (.objSchema [] [] false) (.obj [("x", .null)]) "instance" ≠ [] :=
  C7_closed_schema_and_error_aggregation.1 [] [] [("x", .null)] "instance" "x" .null rfl rfl

/-- Asset-manifest document carrying a legacy stack-tags payload; used to
exhibit that the asset load path does not run the normalizer. -/
def c8LegacyDoc : JValue := .obj [("version", .str "1.0.0"),
  ("artifacts", .obj [("s", .obj [("type", .str AWS_CLOUDFORMATION_STACK),
    ("metadata", .obj [("m", .arr [.obj [("type", .str STACK_TAGS),
      ("data", .arr [.obj [("Key", .str "env"), ("Value", .str "prod")]])]])])])])]

/-- Claim C8 — `loadAssetManifest` follows the same flow as `load` with the
same version field and version-compatibility rule: a version strictly above
the current one fails with the same marker-carrying mismatch error, and
otherwise success or failure is decided by validating the document wrapped
under the `assets` key (where `load` wraps under `manifest`) against the
embedded grammar. It does not run the Legacy Shape Normalizer: the returned
document is the stored one, unchanged — concretely, a legacy-cased stack-tags
document is returned verbatim by `loadAssetManifest` although the normalizer
would rewrite it (and `load` does). -/
theorem C8_loadAssetManifest_flow (cv : String) (sch : JSchema) (doc vv : JValue)
    (mv av : SemVer)
    (hv : jsGetOpt doc "version" = some vv)
    (hcv : semverValid cv = some mv)
    (hav : semverOfJV vv = some av) :
    (semverGt av mv = true →
      Manifest.loadAssetManifest cv sch doc = .error (.versionMismatch mv.render av.render) ∧
      beginsWith (LoadError.versionMismatch mv.render av.render).message
        VERSION_MISMATCH = true) ∧
    (semverGt av mv = false →
      (schemaValidate sch (.obj [("assets", doc)]) "instance" = [] →
        Manifest.loadAssetManifest cv sch doc = .ok doc) ∧
      (∀ errs, schemaValidate sch (.obj [("assets", doc)]) "instance" = errs → errs ≠ [] →
        Manifest.loadAssetManifest cv sch doc = .error (.invalidManifest errs))) ∧
    (Manifest.loadAssetManifest "10.0.0" .any c8LegacyDoc = .ok c8LegacyDoc ∧
      Manifest.patchStackTags c8LegacyDoc ≠ some c8LegacyDoc ∧
      Manifest.load "10.0.0" .any c8LegacyDoc ≠ .ok c8LegacyDoc) := by
  refine ⟨?_, ?_, by decide⟩
  · intro hgt
    refine ⟨?_, versionMismatch_message_marker _ _⟩
    simp only [Manifest.loadAssetManifest, hv, Manifest._validate, hcv, hav, hgt,
      eq_self_iff_true, if_true]
  · intro hgt
    constructor
    · intro hvalid
      simp only [Manifest.loadAssetManifest, hv, Manifest._validate, hcv, hav, hgt,
        Bool.false_eq_true, if_false, hvalid, eq_self_iff_true, if_true]
    · intro errs herrs hne
      simp only [Manifest.loadAssetManifest, hv, Manifest._validate, hcv, hav, hgt,
        Bool.false_eq_true, if_false, herrs, if_neg hne]

/-- Witness for C8: an asset manifest with version above the current one
fails with the mismatch error. -/
theorem C8_loadAssetManifest_flow_witness :
    Manifest.loadAssetManifest "10.0.0" .any (.obj [("version", .str "11.0.0")])
      = .error (.versionMismatch (SemVer.render ⟨10, 0, 0, []⟩)
          (SemVer.render ⟨11, 0, 0, []⟩)) :=
  ((C8_loadAssetManifest_flow "10.0.0" .any (.obj [("version", .str "11.0.0")])
    (.str "11.0.0") ⟨10, 0, 0, []⟩ ⟨11, 0, 0, []⟩
    (by decide) (by decide) (by decide)).1 (by decide)).1

end CloudAssembly

